import Mathlib

/-!
Verification of the US map canvas animation (`src/scripts/globe.ts`).

The renderer's numeric logic is embedded over `ℚ` (exact arithmetic in
place of JS doubles): the geographic-to-pixel projection `latLonToXY`,
the `resize` computation of projection parameters, the complete-graph
connection generation, the per-packet animation step of
`drawDataPackets`, and the quadratic Bézier position formula.
Randomness (`Math.random()`, values in `[0,1)`) is modelled by passing
the drawn random numbers as explicit arguments.
-/

namespace Globe

/-- An edge location from the `edgeLocations` table: a named point with
latitude and longitude in decimal degrees. -/
structure EdgeLocation where
  name : String
  lat : ℚ
  lon : ℚ
deriving Repr, DecidableEq

/-- The fixed list of AWS CloudFront edge locations (28 entries),
transcribed from `edgeLocations` in `globe.ts`. -/
def edgeLocations : List EdgeLocation := [
  ⟨"Ashburn, VA", 39.04, -77.49⟩,
  ⟨"Atlanta, GA", 33.75, -84.39⟩,
  ⟨"Boston, MA", 42.36, -71.06⟩,
  ⟨"Jacksonville, FL", 30.33, -81.66⟩,
  ⟨"Miami, FL", 25.76, -80.19⟩,
  ⟨"New York, NY", 40.71, -74.01⟩,
  ⟨"Newark, NJ", 40.74, -74.17⟩,
  ⟨"Philadelphia, PA", 39.95, -75.17⟩,
  ⟨"Tampa Bay, FL", 27.95, -82.46⟩,
  ⟨"Washington D.C.", 38.91, -77.04⟩,
  ⟨"Chicago, IL", 41.88, -87.63⟩,
  ⟨"Columbus, OH", 39.96, -83.00⟩,
  ⟨"Dallas/Fort Worth, TX", 32.78, -96.80⟩,
  ⟨"Denver, CO", 39.74, -104.99⟩,
  ⟨"Houston, TX", 29.76, -95.37⟩,
  ⟨"Kansas City, MO", 39.10, -94.58⟩,
  ⟨"Minneapolis, MN", 44.98, -93.27⟩,
  ⟨"Nashville, TN", 36.16, -86.78⟩,
  ⟨"South Bend, IN", 41.68, -86.25⟩,
  ⟨"St. Louis, MO", 38.63, -90.20⟩,
  ⟨"Hayward, CA", 37.67, -122.08⟩,
  ⟨"Los Angeles, CA", 34.05, -118.24⟩,
  ⟨"Palo Alto, CA", 37.44, -122.14⟩,
  ⟨"Phoenix, AZ", 33.45, -112.07⟩,
  ⟨"Portland, OR", 45.52, -122.68⟩,
  ⟨"Salt Lake City, UT", 40.76, -111.89⟩,
  ⟨"San Jose, CA", 37.34, -121.89⟩,
  ⟨"Seattle, WA", 47.61, -122.33⟩]

/-- A 2D pixel point (`Point2D` in the source). -/
@[ext]
structure Point2D where
  x : ℚ
  y : ℚ
deriving Repr, DecidableEq

/-- A data packet (`DataPacket` in the source): source and destination
indices into `edgeLocations`, an interpolation progress, and a per-frame
speed increment. -/
structure DataPacket where
  «from» : ℕ
  «to» : ℕ
  progress : ℚ
  speed : ℚ
deriving Repr, DecidableEq

/-- `US_LAT_MIN` from the source. -/
def US_LAT_MIN : ℚ := 24
/-- `US_LAT_MAX` from the source. -/
def US_LAT_MAX : ℚ := 50
/-- `US_LON_MIN` from the source. -/
def US_LON_MIN : ℚ := -125
/-- `US_LON_MAX` from the source. -/
def US_LON_MAX : ℚ := -66

/-- The projection parameters stored on the `USMap` instance and
recomputed by `resize`. -/
structure Proj where
  mapWidth : ℚ
  mapHeight : ℚ
  offsetX : ℚ
  offsetY : ℚ
deriving Repr, DecidableEq

/-- `latLonToXY` from the source: linear projection of (lat, lon) to a
pixel point under the current projection parameters. -/
def latLonToXY (p : Proj) (lat lon : ℚ) : Point2D :=
  { x := p.offsetX + ((lon - US_LON_MIN) / (US_LON_MAX - US_LON_MIN)) * p.mapWidth
    y := p.offsetY + ((US_LAT_MAX - lat) / (US_LAT_MAX - US_LAT_MIN)) * p.mapHeight }

/-- The aspect-ratio computation of `resize`:
`(US_LON_MAX - US_LON_MIN) / (US_LAT_MAX - US_LAT_MIN)`. -/
def usAspectRatio : ℚ := (US_LON_MAX - US_LON_MIN) / (US_LAT_MAX - US_LAT_MIN)

/-- The projection-parameter recomputation of `resize`, as a function of
the viewport width and height. -/
def resizeProj (width height : ℚ) : Proj :=
  let screenAspectRatio := width / height
  if usAspectRatio < screenAspectRatio then
    let mapHeight := height * 0.8
    let mapWidth := mapHeight * usAspectRatio
    { mapWidth := mapWidth, mapHeight := mapHeight
      offsetX := (width - mapWidth) / 2, offsetY := (height - mapHeight) / 2 }
  else
    let mapWidth := width * 0.9
    let mapHeight := mapWidth / usAspectRatio
    { mapWidth := mapWidth, mapHeight := mapHeight
      offsetX := (width - mapWidth) / 2, offsetY := (height - mapHeight) / 2 }

/-- `generateConnections` from the source, over a location count `M`:
the nested loops `i` in `[0, M)`, `j` in `(i, M)` pushing `{from: i, to: j}`. -/
def generateConnections (M : ℕ) : List (ℕ × ℕ) :=
  (List.range M).flatMap fun i =>
    (List.range' (i + 1) (M - (i + 1))).map fun j => (i, j)

/-- `Math.floor(r * edgeLocations.length)` for a random draw `r`. -/
def randIndex (r : ℚ) : ℕ := (Int.floor (r * (edgeLocations.length : ℚ))).toNat

/-- The loop body of `initDataPackets`, given the four random draws
(`from`, `to`, `progress`, `speed`). -/
def initDataPacket (r1 r2 r3 r4 : ℚ) : DataPacket :=
  { «from» := randIndex r1
    «to» := randIndex r2
    progress := r3
    speed := 0.002 + r4 * 0.003 }

/-- The state-mutation part of the per-packet loop body of
`drawDataPackets` (lines 307–314): advance progress by speed unless
reduced motion is preferred; on reaching 1, wrap to 0 and redraw the
endpoints from the two fresh random draws `r1`, `r2`. -/
def stepPacket (prefersReducedMotion : Bool) (r1 r2 : ℚ) (packet : DataPacket) :
    DataPacket :=
  if prefersReducedMotion then packet
  else
    let progress := packet.progress + packet.speed
    if 1 ≤ progress then
      { packet with progress := 0, «from» := randIndex r1, «to» := randIndex r2 }
    else
      { packet with progress := progress }

/-- One frame's state mutation over the packet list (the
`forEach` of `drawDataPackets`), with the random draws for packet `i`
supplied by `rands i`. -/
def stepPackets (prefersReducedMotion : Bool) (rands : ℕ → ℚ × ℚ) :
    ℕ → List DataPacket → List DataPacket
  | _, [] => []
  | i, p :: ps =>
      stepPacket prefersReducedMotion (rands i).1 (rands i).2 p ::
        stepPackets prefersReducedMotion rands (i + 1) ps

/-- `N` frames of packet-state mutation, with the random draws of frame
`k` supplied by `randss k`. -/
def stepFrames (prefersReducedMotion : Bool) (randss : ℕ → ℕ → ℚ × ℚ) :
    ℕ → List DataPacket → List DataPacket
  | 0, ps => ps
  | n + 1, ps =>
      stepFrames prefersReducedMotion randss n
        (stepPackets prefersReducedMotion (randss n) 0 ps)

/-- The packet position formula of `drawDataPackets` (lines 322–334):
quadratic Bézier between the two projected endpoints, with the control
point horizontally centered and 50 pixels above the higher endpoint. -/
def bezierPoint (fromPoint toPoint : Point2D) (t : ℚ) : Point2D :=
  let controlX := (fromPoint.x + toPoint.x) / 2
  let controlY := min fromPoint.y toPoint.y - 50
  { x := (1 - t) * (1 - t) * fromPoint.x + 2 * (1 - t) * t * controlX
       + t * t * toPoint.x
    y := (1 - t) * (1 - t) * fromPoint.y + 2 * (1 - t) * t * controlY
       + t * t * toPoint.y }

/-- The renderer state touched by `resize`, plus the state it must leave
alone. -/
structure MapState where
  width : ℚ
  height : ℚ
  mapWidth : ℚ
  mapHeight : ℚ
  offsetX : ℚ
  offsetY : ℚ
  pixelRatio : ℚ
  dataPackets : List DataPacket
  prefersReducedMotion : Bool
deriving Repr, DecidableEq

/-- `resize` from the source, as a state transformer: store the new
viewport dimensions and the recomputed projection parameters; everything
else is untouched. -/
def resize (s : MapState) (w h : ℚ) : MapState :=
  let p := resizeProj w h
  { s with width := w, height := h
           mapWidth := p.mapWidth, mapHeight := p.mapHeight
           offsetX := p.offsetX, offsetY := p.offsetY }

/-- A point lies in the rectangle spanned by the projection parameters. -/
def inMapRect (p : Proj) (pt : Point2D) : Prop :=
  p.offsetX ≤ pt.x ∧ pt.x ≤ p.offsetX + p.mapWidth ∧
  p.offsetY ≤ pt.y ∧ pt.y ≤ p.offsetY + p.mapHeight

instance (p : Proj) (pt : Point2D) : Decidable (inMapRect p pt) := by
  unfold inMapRect; infer_instance

end Globe

namespace Globe

/-! ### Helper lemmas -/

lemma edgeLocations_length : edgeLocations.length = 28 := rfl

lemma randIndex_lt (r : ℚ) (_h0 : 0 ≤ r) (h1 : r < 1) :
    randIndex r < edgeLocations.length := by
  unfold randIndex
  rw [edgeLocations_length]
  have hf : Int.floor (r * ((28 : ℕ) : ℚ)) < 28 := by
    rw [Int.floor_lt]
    push_cast
    nlinarith
  omega

lemma stepPackets_true (rands : ℕ → ℚ × ℚ) (i : ℕ) (ps : List DataPacket) :
    stepPackets true rands i ps = ps := by
  induction ps generalizing i with
  | nil => rfl
  | cons p ps ih => simp [stepPackets, stepPacket, ih]

lemma resizeProj_nonneg (w h : ℚ) (hw : 0 ≤ w) (hh : 0 < h) :
    0 ≤ (resizeProj w h).mapWidth ∧ 0 ≤ (resizeProj w h).mapHeight := by
  unfold resizeProj
  dsimp only
  split <;> constructor <;>
    norm_num [usAspectRatio, US_LON_MAX, US_LON_MIN, US_LAT_MAX, US_LAT_MIN] <;>
    nlinarith

/-! ### Claim theorems -/

/-- C1: `latLonToXY` returns the pixel point with
`x = offsetX + ((lon - LON_MIN) / (LON_MAX - LON_MIN)) * mapWidth` and
`y = offsetY + ((LAT_MAX - lat) / (LAT_MAX - LAT_MIN)) * mapHeight` for the
bounds `LAT_MIN = 24`, `LAT_MAX = 50`, `LON_MIN = -125`, `LON_MAX = -66`,
for every latitude and longitude (hence without any clamping outside the
bounding box). -/
theorem latLonToXY_formula (p : Proj) (lat lon : ℚ) :
    (latLonToXY p lat lon).x
      = p.offsetX + ((lon - (-125)) / ((-66) - (-125))) * p.mapWidth ∧
    (latLonToXY p lat lon).y
      = p.offsetY + ((50 - lat) / (50 - 24)) * p.mapHeight :=
  ⟨rfl, rfl⟩

/-- C5: the quadratic Bézier position formula of `drawDataPackets`
evaluates, at progress `t = 0`, to exactly the projected source point, and
at `t = 1` to exactly the projected destination point, for every pair of
projected points. -/
theorem bezier_endpoints (p : Proj) (lat1 lon1 lat2 lon2 : ℚ) :
    bezierPoint (latLonToXY p lat1 lon1) (latLonToXY p lat2 lon2) 0
      = latLonToXY p lat1 lon1 ∧
    bezierPoint (latLonToXY p lat1 lon1) (latLonToXY p lat2 lon2) 1
      = latLonToXY p lat2 lon2 := by
  constructor <;> simp [bezierPoint]

/-- C8: `resize` is idempotent — a second invocation with the same
viewport width and height leaves the stored projection parameters exactly
as after the first — and it mutates none of the renderer state other than
the stored viewport dimensions and projection parameters (pixel ratio,
packets, and the reduced-motion flag are untouched). -/
theorem resize_idempotent (s : MapState) (w h : ℚ) :
    resize (resize s w h) w h = resize s w h ∧
    (resize s w h).pixelRatio = s.pixelRatio ∧
    (resize s w h).dataPackets = s.dataPackets ∧
    (resize s w h).prefersReducedMotion = s.prefersReducedMotion :=
  ⟨rfl, rfl, rfl, rfl⟩

/-- C3: with the reduced-motion flag true, any number `n` of per-frame
packet steps (whatever random draws each frame would have used) leaves the
whole packet list — so every packet's progress, source index, and
destination index — exactly as before the first invocation. -/
theorem reduced_motion_freezes_packets (randss : ℕ → ℕ → ℚ × ℚ) (n : ℕ)
    (ps : List DataPacket) :
    stepFrames true randss n ps = ps := by
  induction n generalizing ps with
  | zero => rfl
  | succ n ih => rw [stepFrames, stepPackets_true, ih]

end Globe

namespace Globe

/-- C2: a packet's progress stays in `[0,1)` across initialization (the
`progress` random draw is in `[0,1)`) and across every per-frame step
(given the nonnegative speed every initialized packet has); and in any
advancing step where progress plus speed reaches or exceeds 1, that step
sets progress to exactly 0 and reassigns both endpoints from the step's
fresh random draws. -/
theorem packet_progress_invariant (reduced : Bool) (r1 r2 r3 r4 s1 s2 : ℚ)
    (p : DataPacket) (hr3 : 0 ≤ r3 ∧ r3 < 1)
    (hp : 0 ≤ p.progress ∧ p.progress < 1) (hs : 0 ≤ p.speed) :
    (0 ≤ (initDataPacket r1 r2 r3 r4).progress ∧
      (initDataPacket r1 r2 r3 r4).progress < 1) ∧
    (0 ≤ (stepPacket reduced s1 s2 p).progress ∧
      (stepPacket reduced s1 s2 p).progress < 1) ∧
    (reduced = false → 1 ≤ p.progress + p.speed →
      (stepPacket reduced s1 s2 p).progress = 0 ∧
      (stepPacket reduced s1 s2 p).«from» = randIndex s1 ∧
      (stepPacket reduced s1 s2 p).«to» = randIndex s2) := by
  refine ⟨hr3, ?_, ?_⟩
  · cases reduced with
    | true => simpa [stepPacket] using hp
    | false =>
      unfold stepPacket
      simp only [Bool.false_eq_true, if_false]
      split
      · exact ⟨le_refl 0, by norm_num⟩
      · rename_i hlt
        push_neg at hlt
        exact ⟨by dsimp only; linarith [hp.1], by dsimp only; linarith⟩
  · intro hred hadv
    subst hred
    unfold stepPacket
    simp only [Bool.false_eq_true, if_false]
    rw [if_pos hadv]
    exact ⟨rfl, rfl, rfl⟩

theorem packet_progress_invariant_witness :
    (stepPacket false (1/2) (1/4) ⟨0, 1, 97/100, 1/20⟩).progress = 0 ∧
    (stepPacket false (1/2) (1/4) ⟨0, 1, 97/100, 1/20⟩).«from» = randIndex (1/2) ∧
    (stepPacket false (1/2) (1/4) ⟨0, 1, 97/100, 1/20⟩).«to» = randIndex (1/4) :=
  (packet_progress_invariant false 0 0 (1/2) 0 (1/2) (1/4) ⟨0, 1, 97/100, 1/20⟩
    (by norm_num) (by norm_num) (by norm_num)).2.2 rfl (by norm_num)

/-- C10: packet endpoint indices are strictly below the length of the
location list (28) at initialization and after every step (in particular
after every random reassignment, the draws being in `[0,1)`), so the
step's lookups into `edgeLocations` always succeed. -/
theorem packet_indices_in_bounds (reduced : Bool) (r1 r2 r3 r4 s1 s2 : ℚ)
    (p : DataPacket)
    (h1 : 0 ≤ r1 ∧ r1 < 1) (h2 : 0 ≤ r2 ∧ r2 < 1)
    (hs1 : 0 ≤ s1 ∧ s1 < 1) (hs2 : 0 ≤ s2 ∧ s2 < 1)
    (hp : p.«from» < edgeLocations.length ∧ p.«to» < edgeLocations.length) :
    ((initDataPacket r1 r2 r3 r4).«from» < edgeLocations.length ∧
     (initDataPacket r1 r2 r3 r4).«to» < edgeLocations.length) ∧
    ((stepPacket reduced s1 s2 p).«from» < edgeLocations.length ∧
     (stepPacket reduced s1 s2 p).«to» < edgeLocations.length) ∧
    (edgeLocations[(stepPacket reduced s1 s2 p).«from»]?.isSome = true ∧
     edgeLocations[(stepPacket reduced s1 s2 p).«to»]?.isSome = true) := by
  have hstep : (stepPacket reduced s1 s2 p).«from» < edgeLocations.length ∧
      (stepPacket reduced s1 s2 p).«to» < edgeLocations.length := by
    cases reduced with
    | true => simpa [stepPacket] using hp
    | false =>
      unfold stepPacket
      simp only [Bool.false_eq_true, if_false]
      split
      · exact ⟨randIndex_lt s1 hs1.1 hs1.2, randIndex_lt s2 hs2.1 hs2.2⟩
      · exact hp
  refine ⟨⟨randIndex_lt r1 h1.1 h1.2, randIndex_lt r2 h2.1 h2.2⟩, hstep, ?_, ?_⟩
  · rw [List.getElem?_eq_getElem hstep.1]; rfl
  · rw [List.getElem?_eq_getElem hstep.2]; rfl

theorem packet_indices_in_bounds_witness :
    edgeLocations[(stepPacket false 0 (1/2) ⟨27, 0, 1/2, 1/100⟩).«from»]?.isSome
      = true ∧
    edgeLocations[(stepPacket false 0 (1/2) ⟨27, 0, 1/2, 1/100⟩).«to»]?.isSome
      = true :=
  (packet_indices_in_bounds false 0 (1/2) 0 0 0 (1/2) ⟨27, 0, 1/2, 1/100⟩
    (by norm_num) (by norm_num) (by norm_num) (by norm_num) (by decide)).2.2

/-- C6: under the projection parameters produced by `resize` (which are
nonnegative for a nonnegative-width, positive-height viewport), the
projection is monotone: a larger longitude never projects to a smaller x,
and a larger latitude never projects to a larger y. -/
theorem latLonToXY_monotone (w h lat1 lat2 lon1 lon2 : ℚ)
    (hw : 0 ≤ w) (hh : 0 < h) (hlon : lon1 ≤ lon2) (hlat : lat1 ≤ lat2) :
    (latLonToXY (resizeProj w h) lat1 lon1).x
      ≤ (latLonToXY (resizeProj w h) lat2 lon2).x ∧
    (latLonToXY (resizeProj w h) lat2 lon2).y
      ≤ (latLonToXY (resizeProj w h) lat1 lon1).y := by
  obtain ⟨hW, hH⟩ := resizeProj_nonneg w h hw hh
  unfold latLonToXY
  constructor
  · dsimp only
    norm_num [US_LON_MIN, US_LON_MAX]
    gcongr
  · dsimp only
    norm_num [US_LAT_MIN, US_LAT_MAX]
    gcongr

theorem latLonToXY_monotone_witness :
    (latLonToXY (resizeProj 100 100) 30 (-100)).x
      ≤ (latLonToXY (resizeProj 100 100) 40 (-80)).x ∧
    (latLonToXY (resizeProj 100 100) 40 (-80)).y
      ≤ (latLonToXY (resizeProj 100 100) 30 (-100)).y :=
  latLonToXY_monotone 100 100 30 40 (-100) (-80)
    (by norm_num) (by norm_num) (by norm_num) (by norm_num)

end Globe

namespace Globe

lemma latLonToXY_mem_rect (q : Proj) (hW : 0 ≤ q.mapWidth) (hH : 0 ≤ q.mapHeight)
    (lat lon : ℚ) (hlat1 : 24 ≤ lat) (hlat2 : lat ≤ 50)
    (hlon1 : -125 ≤ lon) (hlon2 : lon ≤ -66) :
    inMapRect q (latLonToXY q lat lon) := by
  unfold inMapRect latLonToXY
  dsimp only
  norm_num [US_LAT_MIN, US_LAT_MAX, US_LON_MIN, US_LON_MAX]
  refine ⟨?_, ?_, ?_, ?_⟩
  · nlinarith [mul_nonneg (show (0:ℚ) ≤ (lon + 125) / 59 by linarith) hW]
  · nlinarith [mul_le_of_le_one_left hW (show (lon + 125) / 59 ≤ (1:ℚ) by linarith)]
  · nlinarith [mul_nonneg (show (0:ℚ) ≤ (50 - lat) / 26 by linarith) hH]
  · nlinarith [mul_le_of_le_one_left hH (show (50 - lat) / 26 ≤ (1:ℚ) by linarith)]

/-- C7: for every viewport with nonnegative width and positive height,
the four corners of the geographic bounding box (lat in {24, 50}, lon in
{-125, -66}) project, under the parameters computed by `resize`, into the
rectangle `[offsetX, offsetX + mapWidth] × [offsetY, offsetY + mapHeight]`. -/
theorem resize_corners_in_rect (w h : ℚ) (hw : 0 ≤ w) (hh : 0 < h) :
    inMapRect (resizeProj w h) (latLonToXY (resizeProj w h) 24 (-125)) ∧
    inMapRect (resizeProj w h) (latLonToXY (resizeProj w h) 24 (-66)) ∧
    inMapRect (resizeProj w h) (latLonToXY (resizeProj w h) 50 (-125)) ∧
    inMapRect (resizeProj w h) (latLonToXY (resizeProj w h) 50 (-66)) := by
  obtain ⟨hW, hH⟩ := resizeProj_nonneg w h hw hh
  exact ⟨latLonToXY_mem_rect _ hW hH 24 (-125) (by norm_num) (by norm_num)
           (by norm_num) (by norm_num),
         latLonToXY_mem_rect _ hW hH 24 (-66) (by norm_num) (by norm_num)
           (by norm_num) (by norm_num),
         latLonToXY_mem_rect _ hW hH 50 (-125) (by norm_num) (by norm_num)
           (by norm_num) (by norm_num),
         latLonToXY_mem_rect _ hW hH 50 (-66) (by norm_num) (by norm_num)
           (by norm_num) (by norm_num)⟩

theorem resize_corners_in_rect_witness :
    inMapRect (resizeProj 1280 720) (latLonToXY (resizeProj 1280 720) 24 (-125)) ∧
    inMapRect (resizeProj 1280 720) (latLonToXY (resizeProj 1280 720) 24 (-66)) ∧
    inMapRect (resizeProj 1280 720) (latLonToXY (resizeProj 1280 720) 50 (-125)) ∧
    inMapRect (resizeProj 1280 720) (latLonToXY (resizeProj 1280 720) 50 (-66)) :=
  resize_corners_in_rect 1280 720 (by norm_num) (by norm_num)

/-- C9: for the two locations (lat 40, lon -74) and (lat 34, lon -118)
and any projection parameters with positive map width and height, the
packet position at progress 1/2 lies strictly above (smaller y than) the
straight-line midpoint of the two projected points. -/
theorem midpath_above_midpoint (q : Proj)
    (_hW : 0 < q.mapWidth) (_hH : 0 < q.mapHeight) :
    (bezierPoint (latLonToXY q 40 (-74)) (latLonToXY q 34 (-118)) (1/2)).y
      < ((latLonToXY q 40 (-74)).y + (latLonToXY q 34 (-118)).y) / 2 := by
  have key : ∀ a b : Point2D, (bezierPoint a b (1/2)).y < (a.y + b.y) / 2 := by
    intro a b
    unfold bezierPoint
    dsimp only
    rcases le_total a.y b.y with hab | hab
    · rw [min_eq_left hab]; linarith
    · rw [min_eq_right hab]; linarith
  exact key _ _

theorem midpath_above_midpoint_witness :
    (bezierPoint (latLonToXY ⟨59, 26, 0, 0⟩ 40 (-74))
        (latLonToXY ⟨59, 26, 0, 0⟩ 34 (-118)) (1/2)).y
      < ((latLonToXY ⟨59, 26, 0, 0⟩ 40 (-74)).y
          + (latLonToXY ⟨59, 26, 0, 0⟩ 34 (-118)).y) / 2 :=
  midpath_above_midpoint ⟨59, 26, 0, 0⟩ (by norm_num) (by norm_num)

end Globe

namespace Globe

lemma generateConnections_length (M : ℕ) :
    (generateConnections M).length = M * (M - 1) / 2 := by
  unfold generateConnections
  rw [List.length_flatMap]
  have h0 : (List.length ∘ fun i =>
      List.map (fun j => (i, j)) (List.range' (i + 1) (M - (i + 1))))
      = fun i => M - (i + 1) := by
    funext i; simp [List.length_range']
  rw [h0]
  have h1 : (List.map (fun i => M - (i + 1)) (List.range M)).sum
      = ∑ i ∈ Finset.range M, (M - (i + 1)) := rfl
  rw [h1]
  have h := Finset.sum_range_reflect (fun i => i) M
  simp at h
  rw [← Finset.sum_range_id M, ← h]
  apply Finset.sum_congr rfl
  intro i hi
  simp at hi
  omega

lemma generateConnections_mem_lt (M : ℕ) (c : ℕ × ℕ)
    (hc : c ∈ generateConnections M) : c.1 < c.2 := by
  unfold generateConnections at hc
  simp only [List.mem_flatMap, List.mem_map, List.mem_range,
    List.mem_range'_1] at hc
  obtain ⟨i, hi, j, hj, rfl⟩ := hc
  omega

lemma generateConnections_nodup (M : ℕ) : (generateConnections M).Nodup := by
  unfold generateConnections
  rw [List.nodup_flatMap]
  constructor
  · intro i _
    apply List.Nodup.map
    · intro a b hab; simpa using hab
    · exact List.nodup_range' _ _
  · apply List.Pairwise.imp ?_ (List.pairwise_lt_range M)
    intro a b hab
    simp only [Function.onFun, List.disjoint_left]
    rintro ⟨x, y⟩ hx hy
    simp only [List.mem_map] at hx hy
    obtain ⟨j, _, hj⟩ := hx
    obtain ⟨k, _, hk⟩ := hy
    have ha : a = x := (Prod.mk.injEq _ _ _ _).mp hj |>.1
    have hb : b = x := (Prod.mk.injEq _ _ _ _).mp hk |>.1
    omega

/-- C4: connection generation over `M` locations yields exactly
`M * (M - 1) / 2` connections (378 for the 28-entry location list), every
connection pairs a strictly smaller first index with a larger second one
(hence no self-pairs), and no unordered pair of indices occurs more than
once in the list. -/
theorem generateConnections_complete (M : ℕ) :
    (generateConnections M).length = M * (M - 1) / 2 ∧
    (∀ c ∈ generateConnections M, c.1 < c.2) ∧
    List.Pairwise
      (fun c d : ℕ × ℕ => ¬(c.1 = d.1 ∧ c.2 = d.2) ∧ ¬(c.1 = d.2 ∧ c.2 = d.1))
      (generateConnections M) ∧
    (generateConnections edgeLocations.length).length = 378 := by
  refine ⟨generateConnections_length M, generateConnections_mem_lt M, ?_, ?_⟩
  · refine List.Pairwise.imp_of_mem ?_ (generateConnections_nodup M)
    intro c d hc hd hne
    have h1 := generateConnections_mem_lt M c hc
    have h2 := generateConnections_mem_lt M d hd
    refine ⟨fun he => hne (Prod.ext he.1 he.2), fun he => ?_⟩
    omega
  · rw [edgeLocations_length, generateConnections_length 28]

theorem generateConnections_complete_witness :
    (generateConnections 3).length = 3 * (3 - 1) / 2 ∧
    ((0, 1) : ℕ × ℕ).1 < ((0, 1) : ℕ × ℕ).2 :=
  ⟨(generateConnections_complete 3).1,
   (generateConnections_complete 3).2.1 (0, 1) (by decide)⟩

end Globe
